import Mathlib

/-!
# MangaHub_Go — verification of the metadata resolution engine

A shallow embedding of the Go backend of `SilverVeritas/MangaHub_Go`
(`backend/models/manga.go`, `backend/models/metadata.go`, the `Chapter`/`Page`
model files and `backend/routes/routes.go`), together with theorems checking
the natural-language specification against it.

Modelling conventions:
* Filesystem paths are lists of components (`Path := List String`); the Go code
  only ever builds paths with `filepath.Join` from clean components and takes
  parents with `filepath.Dir`, which on such paths are exactly list append and
  `dropLast`.
* The filesystem is an explicit tree (`FsNode`).  Directory entry lists are kept
  in the order `os.ReadDir` returns them (sorted by file name); the model reads
  them back in stored order.
* Go strings are modelled as `String`/`List Char` (rune sequences); all string
  data appearing in the claims is ASCII, where Go's byte-wise operations agree
  with the rune-wise model.
* Go `float64` values (`Chapter.Number`, JSON numbers) are modelled as `ℚ`.
  Every numeric literal appearing in a claim, theorem or witness ("0.5", "1",
  "2", "3", …) is exactly representable in `float64`, so order and equality
  comparisons agree with the Go semantics on all inputs used here.
* Go `int` is modelled as `ℤ` (no theorem here exercises 64-bit overflow).
* `time.Time` values are opaque instants (`GoTime := ℤ`); `time.Now()` becomes
  an explicit `now` parameter.
* JSON (de)serialization of the sidecar records is modelled at the document
  level: a `metadata.json` file's bytes are represented by the outcome of
  decoding them as a series record and as a chapter record (`FileData`).
  A field absent from a JSON document and a field present with its zero value
  decode to the same record, so documents are represented up to that
  (observation-preserving) equivalence.
-/

/-- Instants of `time.Time`, abstract. -/
abbrev GoTime := Int

/-- A filesystem path as its list of components. -/
abbrev FsPath := List String

/-- The typed errors of `backend/models/errors.go`.  Each Go error type carries
its message string. -/
inductive GoError where
  | mangaNotFoundError (msg : String)
  | chapterNotFoundError (msg : String)
  | pageNotFoundError (msg : String)
  | metadataError (msg : String)
  | validationError (msg : String)
  deriving DecidableEq, Repr

/-- `models.IsMangaNotFoundError`. -/
def GoError.isMangaNotFoundError : GoError → Bool
  | .mangaNotFoundError _ => true
  | _ => false

/-- `models.IsChapterNotFoundError`. -/
def GoError.isChapterNotFoundError : GoError → Bool
  | .chapterNotFoundError _ => true
  | _ => false

/-- `models.IsPageNotFoundError`. -/
def GoError.isPageNotFoundError : GoError → Bool
  | .pageNotFoundError _ => true
  | _ => false

/-- `models.IsMetadataError`. -/
def GoError.isMetadataError : GoError → Bool
  | .metadataError _ => true
  | _ => false

/-- `strings.ToLower`, restricted to the ASCII mapping `'A'..'Z' ↦ 'a'..'z'`
(all inputs considered by the claims are ASCII). -/
def goToLowerChar (c : Char) : Char :=
  if 'A' ≤ c ∧ c ≤ 'Z' then Char.ofNat (c.toNat + 32) else c

/-- `strings.ToLower` on a whole string. -/
def goToLower (s : List Char) : List Char :=
  s.map goToLowerChar

/-- `filepath.Ext` on a single path component (file names returned by
`os.ReadDir` contain no separator): the suffix of the name starting at its
final dot, or `[]` if the name has no dot. -/
def goExt : List Char → List Char
  | [] => []
  | c :: rest =>
    match goExt rest with
    | [] => if c = '.' then c :: rest else []
    | e => e

/-- `strings.HasPrefix`. -/
def goHasPrefix (s pre : List Char) : Bool :=
  pre.isPrefixOf s

/-- `strings.Contains`. -/
def goContains (s sub : List Char) : Bool :=
  decide (sub <:+: s)

/-- One fuel-indexed step list for `strings.ReplaceAll` (non-overlapping,
left-to-right).  The fuel is instantiated with the length of the subject
string, which always suffices because each step consumes at least one
character. -/
def goReplaceAllAux (pat rep : List Char) : Nat → List Char → List Char
  | _, [] => []
  | 0, s => s
  | fuel + 1, c :: rest =>
    if pat.isPrefixOf (c :: rest) then
      rep ++ goReplaceAllAux pat rep fuel ((c :: rest).drop pat.length)
    else
      c :: goReplaceAllAux pat rep fuel rest

/-- `strings.ReplaceAll s pat rep` for a nonempty pattern (every pattern used
by the source is nonempty). -/
def goReplaceAll (s pat rep : List Char) : List Char :=
  if pat = [] then s else goReplaceAllAux pat rep s.length s

/-- `strconv.Atoi`: an optional sign followed by at least one ASCII digit and
nothing else.  (The int64 range check is not modelled; no input considered here
approaches it.) -/
def goAtoi (s : List Char) : Option Int :=
  let (sign, digits) : Int × List Char :=
    match s with
    | '-' :: rest => (-1, rest)
    | '+' :: rest => (1, rest)
    | _ => (1, s)
  if digits = [] ∨ ¬ digits.all (·.isDigit) then none
  else some (sign * (digits.foldl (fun acc c => acc * 10 + (c.toNat - '0'.toNat)) 0 : Nat))

/-- JSON whitespace accepted by `encoding/json` around a top-level value. -/
def isJsonSpace (c : Char) : Bool :=
  c = ' ' ∨ c = '\t' ∨ c = '\n' ∨ c = '\r'

/-- Parse the integer part of a JSON number: `0`, or a nonzero digit followed
by digits.  Returns the value and the rest of the input. -/
def jsonIntPart : List Char → Option (Nat × List Char)
  | '0' :: rest => some (0, rest)
  | c :: rest =>
    if c.isDigit ∧ c ≠ '0' then
      let digits := rest.takeWhile (·.isDigit)
      some (((c :: digits).foldl (fun acc d => acc * 10 + (d.toNat - '0'.toNat)) 0),
            rest.dropWhile (·.isDigit))
    else none
  | [] => none

/-- Parse the optional fraction part of a JSON number: either no `.`, or a `.`
followed by at least one digit.  Returns numerator, digit count, rest. -/
def jsonFracPart : List Char → Option (Nat × Nat × List Char)
  | '.' :: rest =>
    let digits := rest.takeWhile (·.isDigit)
    if digits = [] then none
    else some (digits.foldl (fun acc d => acc * 10 + (d.toNat - '0'.toNat)) 0,
               digits.length, rest.dropWhile (·.isDigit))
  | t => some (0, 0, t)

/-- Parse the optional exponent part of a JSON number. -/
def jsonExpPart : List Char → Option (Int × List Char)
  | 'e' :: rest | 'E' :: rest =>
    let (esign, rest) : Int × List Char :=
      match rest with
      | '-' :: r => (-1, r)
      | '+' :: r => (1, r)
      | _ => (1, rest)
    let digits := rest.takeWhile (·.isDigit)
    if digits = [] then none
    else some (esign * (digits.foldl (fun acc d => acc * 10 + (d.toNat - '0'.toNat)) 0 : Nat),
               rest.dropWhile (·.isDigit))
  | t => some (0, t)

/-- `jsonNumberToFloat` (metadata.go): `json.Unmarshal` of the string into a
`float64`.  Succeeds exactly on a JSON number surrounded by optional JSON
whitespace; the value is modelled exactly in `ℚ`.  (`json.Unmarshal` of the
literal `null` leaves the zero value in place and reports no error; since the
caller treats a resulting `0` the same as a parse failure, `null` is mapped to
`none` here, which is observation-equivalent.) -/
def goJsonNumber (s : List Char) : Option ℚ :=
  let t := s.dropWhile isJsonSpace
  let (sign, t) : Int × List Char :=
    match t with
    | '-' :: rest => (-1, rest)
    | _ => (1, t)
  match jsonIntPart t with
  | none => none
  | some (ip, t) =>
    match jsonFracPart t with
    | none => none
    | some (fracNum, fracDigits, t) =>
      match jsonExpPart t with
      | none => none
      | some (expVal, t) =>
        if (t.dropWhile isJsonSpace).isEmpty then
          -- sign · (ip + fracNum/10^fracDigits) · 10^expVal, written with a
          -- single normalizing division
          let mant : Int := sign * ((ip * 10 ^ fracDigits + fracNum : Nat) : Int)
          some (if 0 ≤ expVal then
                  mkRat (mant * ((10 ^ expVal.toNat : Nat) : Int)) (10 ^ fracDigits)
                else
                  mkRat mant (10 ^ fracDigits * 10 ^ (-expVal).toNat))
        else none

/-- `models.MangaSeries` (manga.go).  `Path` carries the json:"-" tag: it is
internal only and never serialized. -/
structure MangaSeries where
  ID : String
  Title : String
  Description : String
  Author : String
  Artist : String
  CoverImage : String
  Genres : List String
  Status : String
  PublishedYear : Int
  LastUpdated : GoTime
  ChapterCount : Int
  AltTitles : List String
  Path : FsPath
  deriving DecidableEq, Repr

/-- The JSON document written/read for a `MangaSeries` sidecar: every field of
the struct except the unserialized `Path`. -/
structure MangaDoc where
  ID : String
  Title : String
  Description : String
  Author : String
  Artist : String
  CoverImage : String
  Genres : List String
  Status : String
  PublishedYear : Int
  LastUpdated : GoTime
  ChapterCount : Int
  AltTitles : List String
  deriving DecidableEq, Repr

/-- `models.Chapter` (chapter model file).  `Number` is a Go `float64`
(fractional chapters such as 1.5), modelled in `ℚ`; `Path` carries json:"-". -/
structure Chapter where
  ID : String
  MangaID : String
  Number : ℚ
  Title : String
  ReleaseDate : GoTime
  PageCount : Int
  Path : FsPath
  Volume : Int
  Special : Bool
  deriving DecidableEq, Repr

/-- The JSON document written/read for a `Chapter` sidecar (all fields except
the unserialized `Path`). -/
structure ChapterDoc where
  ID : String
  MangaID : String
  Number : ℚ
  Title : String
  ReleaseDate : GoTime
  PageCount : Int
  Volume : Int
  Special : Bool
  deriving DecidableEq, Repr

/-- `models.Page` (page model file).  `Width`/`Height`/`FileSize`/`MimeType`
are populated only by the lazy `LoadImageMetadata`, never during listing. -/
structure Page where
  Number : Int
  ImagePath : FsPath
  ChapterID : String
  MangaID : String
  Width : Int
  Height : Int
  FileSize : Int
  MimeType : String
  deriving DecidableEq, Repr

/-- `json.Marshal` of a `MangaSeries`: the document holds every field except
`Path`. -/
def encodeManga (m : MangaSeries) : MangaDoc :=
  { ID := m.ID, Title := m.Title, Description := m.Description, Author := m.Author,
    Artist := m.Artist, CoverImage := m.CoverImage, Genres := m.Genres,
    Status := m.Status, PublishedYear := m.PublishedYear, LastUpdated := m.LastUpdated,
    ChapterCount := m.ChapterCount, AltTitles := m.AltTitles }

/-- `json.Unmarshal` of a series document into a fresh `MangaSeries`, followed
by `m.Path = filepath.Dir(path)` as in `MangaSeries.LoadFromJSON`. -/
def mangaFromDoc (d : MangaDoc) (dir : FsPath) : MangaSeries :=
  { ID := d.ID, Title := d.Title, Description := d.Description, Author := d.Author,
    Artist := d.Artist, CoverImage := d.CoverImage, Genres := d.Genres,
    Status := d.Status, PublishedYear := d.PublishedYear, LastUpdated := d.LastUpdated,
    ChapterCount := d.ChapterCount, AltTitles := d.AltTitles, Path := dir }

/-- `json.Marshal` of a `Chapter`. -/
def encodeChapter (c : Chapter) : ChapterDoc :=
  { ID := c.ID, MangaID := c.MangaID, Number := c.Number, Title := c.Title,
    ReleaseDate := c.ReleaseDate, PageCount := c.PageCount, Volume := c.Volume,
    Special := c.Special }

/-- `json.Unmarshal` of a chapter document into a fresh `Chapter`, followed by
`c.Path = filepath.Dir(path)` as in `Chapter.LoadFromJSON`. -/
def chapterFromDoc (d : ChapterDoc) (dir : FsPath) : Chapter :=
  { ID := d.ID, MangaID := d.MangaID, Number := d.Number, Title := d.Title,
    ReleaseDate := d.ReleaseDate, PageCount := d.PageCount, Path := dir,
    Volume := d.Volume, Special := d.Special }

/-- The observable content of one file: the outcomes of `json.Unmarshal` of its
bytes into a `MangaSeries` and into a `Chapter` (`none` = unreadable or not
valid JSON for that target, e.g. an image file or a corrupt sidecar). -/
structure FileData where
  asManga : Option MangaDoc
  asChapter : Option ChapterDoc
  deriving DecidableEq, Repr

/-- Decoding a chapter JSON document as a `MangaSeries`: only the keys `id` and
`title` are shared between the two structs; all other series fields keep their
zero values. -/
def mangaViewOfChapterDoc (d : ChapterDoc) : MangaDoc :=
  { ID := d.ID, Title := d.Title, Description := "", Author := "", Artist := "",
    CoverImage := "", Genres := [], Status := "", PublishedYear := 0,
    LastUpdated := 0, ChapterCount := 0, AltTitles := [] }

/-- Decoding a series JSON document as a `Chapter`: only `id` and `title` are
shared keys. -/
def chapterViewOfMangaDoc (d : MangaDoc) : ChapterDoc :=
  { ID := d.ID, MangaID := "", Number := 0, Title := d.Title, ReleaseDate := 0,
    PageCount := 0, Volume := 0, Special := false }

/-- The bytes `MangaSeries.SaveToJSON` writes, as a `FileData`. -/
def mangaFileData (d : MangaDoc) : FileData :=
  { asManga := some d, asChapter := some (chapterViewOfMangaDoc d) }

/-- The bytes `Chapter.SaveToJSON` writes, as a `FileData`. -/
def chapterFileData (d : ChapterDoc) : FileData :=
  { asManga := some (mangaViewOfChapterDoc d), asChapter := some d }

/-- A filesystem tree.  Directory entries are kept in the order `os.ReadDir`
reports them (sorted by name). -/
inductive FsNode where
  | file (data : FileData)
  | dir (entries : List (String × FsNode))

/-- Whether a node is a directory (`DirEntry.IsDir`). -/
def FsNode.isDirNode : FsNode → Bool
  | .file _ => false
  | .dir _ => true

/-- Resolve a path inside a tree. -/
def FsNode.lookup : FsNode → FsPath → Option FsNode
  | n, [] => some n
  | .file _, _ :: _ => none
  | .dir es, k :: rest =>
    match es.find? (fun e => e.1 = k) with
    | some e => e.2.lookup rest
    | none => none

/-- `os.Stat(path)` succeeding (the path names an existing file or directory). -/
def FsNode.statExists (fs : FsNode) (p : FsPath) : Bool :=
  (fs.lookup p).isSome

/-- `os.ReadDir(path)`: the entries of the directory at `p`, or `none` when the
directory cannot be enumerated (missing, or not a directory). -/
def FsNode.readDir (fs : FsNode) (p : FsPath) : Option (List (String × FsNode)) :=
  match fs.lookup p with
  | some (.dir es) => some es
  | _ => none

/-- The file content at `p`, when `p` names a regular file. -/
def FsNode.fileAt (fs : FsNode) (p : FsPath) : Option FileData :=
  match fs.lookup p with
  | some (.file d) => some d
  | _ => none

/-- Writing `d` at path `p` on a writable path (`os.WriteFile`, with missing
parents created as `os.MkdirAll` does on the admin write paths of routes.go).
New entries are appended at the end of their directory's entry list. -/
def FsNode.setFile : FsPath → FsNode → FileData → FsNode
  | [], _, d => .file d
  | k :: rest, n, d =>
    let child : FsNode :=
      match n with
      | .dir es => (((es.find? (fun e => e.1 = k)).map (·.2)).getD (.dir []))
      | .file _ => .dir []
    let newChild := FsNode.setFile rest child d
    match n with
    | .dir es =>
      .dir (if es.any (fun e => e.1 = k) then
              es.map (fun e => if e.1 = k then (k, newChild) else e)
            else es ++ [(k, newChild)])
    | .file _ => .dir [(k, newChild)]

/-- `filepath.Dir` of a component path. -/
def dirOf (p : FsPath) : FsPath := p.dropLast

/-- `filepath.Base` of a component path (paths used by the engine are nonempty). -/
def pathBase (p : FsPath) : String := p.getLastD ""

/-- `MetadataFileName` (metadata.go). -/
def metadataFileName : String := "metadata.json"

/-- `MangaSeries.LoadFromJSON` (manga.go): read the file, decode it as a
series record, then overwrite the record's path with the sidecar's parent
directory.  Read and decode failures both yield a `MetadataError` (the model
collapses their message strings to fixed ones). -/
def loadMangaFromJSON (fs : FsNode) (p : FsPath) : Except GoError MangaSeries :=
  match fs.fileAt p with
  | none => .error (.metadataError "failed to read manga metadata")
  | some d =>
    match d.asManga with
    | none => .error (.metadataError "failed to parse manga metadata")
    | some doc => .ok (mangaFromDoc doc (dirOf p))

/-- `Chapter.LoadFromJSON` (chapter model file). -/
def loadChapterFromJSON (fs : FsNode) (p : FsPath) : Except GoError Chapter :=
  match fs.fileAt p with
  | none => .error (.metadataError "failed to read chapter metadata")
  | some d =>
    match d.asChapter with
    | none => .error (.metadataError "failed to parse chapter metadata")
    | some doc => .ok (chapterFromDoc doc (dirOf p))

/-- `MangaSeries.SaveToJSON` (manga.go) on a writable path: marshal the record
(which cannot fail for these field types) and write the bytes at `p`. -/
def saveMangaToJSON (fs : FsNode) (m : MangaSeries) (p : FsPath) : FsNode :=
  FsNode.setFile p fs (mangaFileData (encodeManga m))

/-- `Chapter.SaveToJSON` on a writable path. -/
def saveChapterToJSON (fs : FsNode) (c : Chapter) (p : FsPath) : FsNode :=
  FsNode.setFile p fs (chapterFileData (encodeChapter c))

/-- The chapter-number heuristic of `MetadataManager.CreateChapterFromDirectory`
(metadata.go 298–313): lower-case the directory name, strip every occurrence of
`"chapter-"`, then `"chapter"`, then `"ch"`, try to read the remainder as a
JSON number (`json.Marshal` of a string never fails, so the outer guard always
passes), and replace a failed parse — and a parsed `0` — by `1`. -/
def strippedChapterName (dirName : String) : List Char :=
  goReplaceAll (goReplaceAll (goReplaceAll (goToLower dirName.data)
    "chapter-".data "".data) "chapter".data "".data) "ch".data "".data

/-- The resulting chapter number: the parsed value, with a failed parse — and a
parsed `0` — replaced by `1`. -/
def inferredChapterNumber (dirName : String) : ℚ :=
  match goJsonNumber (strippedChapterName dirName) with
  | some num => if num = 0 then 1 else num
  | none => 1

/-- The image extensions recognized by the scanner (`.jpg`, `.png`, `.jpeg`). -/
def isImageExt (name : String) : Bool :=
  let ext := goToLower (goExt name.data)
  ext = ".jpg".data ∨ ext = ".png".data ∨ ext = ".jpeg".data

/-- `MetadataManager.CreateChapterFromDirectory` (metadata.go): infer a chapter
record from a directory name and its contents.  The Go function's error result
is literally `nil` on every path, so the embedding returns the record
directly. -/
def createChapterFromDirectory (fs : FsNode) (now : GoTime) (mangaID : String)
    (dirPath : FsPath) : Chapter :=
  let dirName := pathBase dirPath
  let chapterNum := inferredChapterNumber dirName
  -- count pages: non-directory immediate entries with an image extension
  -- (os.ReadDir's error is discarded; a failed read counts zero pages)
  let entries := (fs.readDir dirPath).getD []
  let pageCount := entries.countP (fun e => ¬ e.2.isDirNode ∧ isImageExt e.1)
  { ID := dirName, MangaID := mangaID, Number := chapterNum,
    Title := ⟨goReplaceAll dirName.data "-".data " ".data⟩,
    ReleaseDate := now, PageCount := pageCount, Path := dirPath,
    Volume := 0, Special := false }

/-- `MetadataManager.ScanForChapters`, per-entry behaviour: skip files and
hidden directories; load a present sidecar (skipping the entry when the load
fails); otherwise infer the chapter from the directory (which never fails). -/
def chapterEntry (fs : FsNode) (now : GoTime) (manga : MangaSeries)
    (e : String × FsNode) : Option Chapter :=
  if ¬ e.2.isDirNode ∨ goHasPrefix e.1.data ".".data then none
  else
    let chapterPath := manga.Path ++ [e.1]
    let metadataPath := chapterPath ++ [metadataFileName]
    if fs.statExists metadataPath then
      match loadChapterFromJSON fs metadataPath with
      | .ok c => some c
      | .error _ => none
    else
      some (createChapterFromDirectory fs now manga.ID chapterPath)

/-- `MetadataManager.ScanForChapters` (metadata.go 223–287). -/
def scanForChapters (fs : FsNode) (now : GoTime) (manga : MangaSeries) :
    Except GoError (List Chapter) :=
  match fs.readDir manga.Path with
  | none => .error (.metadataError "failed to read manga directory")
  | some entries => .ok (entries.filterMap (chapterEntry fs now manga))

/-- `MetadataManager.CreateMangaFromDirectory` (metadata.go 164–220): infer a
series record from a directory.  As for chapters, the Go error result is
literally `nil` on every path. -/
def createMangaFromDirectory (fs : FsNode) (now : GoTime) (dirPath : FsPath) :
    MangaSeries :=
  let base := pathBase dirPath
  let files := (fs.readDir dirPath).getD []
  -- first pass: a non-directory whose lowered name contains "cover" or is a
  -- thumbnail
  let cover0 : Option String :=
    (files.find? (fun e => ¬ e.2.isDirNode ∧
      (goContains (goToLower e.1.data) "cover".data
        ∨ goToLower e.1.data = "thumbnail.jpg".data
        ∨ goToLower e.1.data = "thumbnail.png".data))).map (·.1)
  -- second pass (only when the first found nothing): the first entry with an
  -- image extension — note the Go loop does not skip directories here
  let cover : String :=
    match cover0 with
    | some n => n
    | none => ((files.find? (fun e => isImageExt e.1)).map (·.1)).getD ""
  let manga : MangaSeries :=
    { ID := base, Title := ⟨goReplaceAll base.data "-".data " ".data⟩,
      Description := "No description available", Author := "", Artist := "",
      CoverImage := cover, Genres := [], Status := "Unknown",
      PublishedYear := 0, LastUpdated := now, ChapterCount := 0,
      AltTitles := [], Path := dirPath }
  -- chapter count: ScanForChapters with its error discarded
  let chapterCount :=
    match scanForChapters fs now manga with
    | .ok cs => (cs.length : Int)
    | .error _ => 0
  { manga with ChapterCount := chapterCount }

/-- `MetadataManager.ScanForManga`, per-entry behaviour: skip non-directories;
load a present sidecar (skipping the entry when the load fails); otherwise
infer the series from the directory (which never fails). -/
def mangaEntry (fs : FsNode) (now : GoTime) (rootDir : FsPath)
    (e : String × FsNode) : Option MangaSeries :=
  if ¬ e.2.isDirNode then none
  else
    let mangaPath := rootDir ++ [e.1]
    let metadataPath := mangaPath ++ [metadataFileName]
    if fs.statExists metadataPath then
      match loadMangaFromJSON fs metadataPath with
      | .ok m => some m
      | .error _ => none
    else
      some (createMangaFromDirectory fs now mangaPath)

/-- `MetadataManager.ScanForManga` (metadata.go 43–107). -/
def scanForManga (fs : FsNode) (now : GoTime) (rootDir : FsPath) :
    Except GoError (List MangaSeries) :=
  match fs.readDir rootDir with
  | none => .error (.metadataError "failed to read root directory")
  | some dirs => .ok (dirs.filterMap (mangaEntry fs now rootDir))

/-- `MetadataManager.GetMangaByID` (metadata.go 110–161): try the direct
sidecar path `root/id/metadata.json` first; if that file exists, return the
result of loading it (errors included); otherwise fall back to a full scan and
a linear search by ID. -/
def getMangaByID (fs : FsNode) (now : GoTime) (rootDir : FsPath) (id : String) :
    Except GoError MangaSeries :=
  let metadataPath := rootDir ++ [id, metadataFileName]
  if fs.statExists metadataPath then
    loadMangaFromJSON fs metadataPath
  else
    match scanForManga fs now rootDir with
    | .error e => .error e
    | .ok mangas =>
      match mangas.find? (fun m => m.ID = id) with
      | some m => .ok m
      | none => .error (.mangaNotFoundError ("no manga with ID: " ++ id))

/-- `isMetadataFile` (chapter model file): exact name `metadata.json` or any
`.json` extension. -/
def isMetadataFile (filename : String) : Bool :=
  filename = "metadata.json" ∨ goExt filename.data = ".json".data

/-- The "page number string" computed by `Chapter.GetPages` for a file name:
`filepath.Base`, then `filepath.Ext` of that, then the slice that drops the
final `filepath.Ext` of the intermediate result
(`pageNumStr[:len(pageNumStr)-len(filepath.Ext(pageNumStr))]`). -/
def pageNumStrOf (name : String) : List Char :=
  let s := goExt name.data
  s.take (s.length - (goExt s).length)

/-- The page-listing loop of `Chapter.GetPages`: skip directories and metadata
files; number each remaining file by `strconv.Atoi` of its computed page-number
string, falling back to `len(pages) + 1`; accumulate in discovery order. -/
def buildPages (c : Chapter) : List (String × FsNode) → List Page → List Page
  | [], acc => acc
  | e :: rest, acc =>
    if e.2.isDirNode ∨ isMetadataFile e.1 then
      buildPages c rest acc
    else
      let pageNum : Int :=
        match goAtoi (pageNumStrOf e.1) with
        | some n => n
        | none => (acc.length : Int) + 1
      let page : Page :=
        { Number := pageNum, ImagePath := c.Path ++ [e.1],
          ChapterID := c.ID, MangaID := c.MangaID, Width := 0, Height := 0,
          FileSize := 0, MimeType := "" }
      buildPages c rest (acc ++ [page])

/-- Stable insertion into a list ascending by page number. -/
def insertPage (p : Page) : List Page → List Page
  | [] => [p]
  | q :: rest => if p.Number < q.Number then p :: q :: rest else q :: insertPage p rest

/-- `sort.Slice(pages, func(i, j) { return pages[i].Number < pages[j].Number })`.
Go's `sort.Slice` returns some reordering that is non-decreasing under the
comparison; on every list this program sorts the page numbers are pairwise
distinct (proved below), for which all comparison sorts agree, so it is
modelled by a concrete insertion sort. -/
def sortPages (l : List Page) : List Page :=
  l.foldr insertPage []

/-- `Chapter.GetPages`: list the chapter directory, build and sort the pages,
and update the chapter's `PageCount` in place (returned here as an updated
record). -/
def getPages (fs : FsNode) (c : Chapter) : Except GoError (List Page × Chapter) :=
  match fs.readDir c.Path with
  | none => .error (.chapterNotFoundError
      ("cannot read pages for chapter of manga " ++ c.MangaID))
  | some files =>
    let pages := sortPages (buildPages c files [])
    .ok (pages, { c with PageCount := (pages.length : Int) })

/-- The chapter-search loop shared by `getChapter`/`getPage`/`updateChapter`
(routes.go): the first chapter whose `Number` equals the requested one,
together with its array index. -/
def findChapter : List Chapter → ℚ → Option (Nat × Chapter)
  | [], _ => none
  | c :: rest, q =>
    if c.Number = q then some (0, c)
    else (findChapter rest q).map (fun ic => (ic.1 + 1, ic.2))

/-- The fields of `getPage`'s JSON response (routes.go 312–331) that carry
engine data.  `nextChapter`/`prevChapter` are included in the response only
when nonempty, modelled as `Option`; their values are chapter numbers
(formatted by `strconv.FormatFloat`, which never yields the empty string). -/
structure PageResponse where
  pageNumber : Int
  totalPages : Int
  chapterID : String
  mangaID : String
  nextPage : Int
  prevPage : Int
  nextChapter : Option ℚ
  prevChapter : Option ℚ
  deriving DecidableEq, Repr

/-- `getPage` (routes.go 229–332): resolve the manga, scan its chapters, find
the chapter by number (array scan order), list its pages, find the page by
number, and compute next/previous chapter adjacency from the chapter's array
index: next is set when the requested page number is ≥ the page count and a
higher-indexed chapter exists; previous when the page number is 1 and the index
is positive. -/
def getPage (fs : FsNode) (now : GoTime) (rootDir : FsPath) (mangaID : String)
    (chapterNumber : ℚ) (pageNumber : Int) : Except GoError PageResponse :=
  match getMangaByID fs now rootDir mangaID with
  | .error e => .error e
  | .ok manga =>
    match scanForChapters fs now manga with
    | .error e => .error e
    | .ok chapters =>
      match findChapter chapters chapterNumber with
      | none => .error (.chapterNotFoundError "Chapter not found")
      | some (chapterIndex, targetChapter) =>
        match getPages fs targetChapter with
        | .error e => .error e
        | .ok (pages, _) =>
          match pages.find? (fun p => p.Number = pageNumber) with
          | none => .error (.pageNotFoundError "Page not found")
          | some targetPage =>
            let nextChapter : Option ℚ :=
              if pageNumber ≥ (pages.length : Int)
                  ∧ (chapterIndex : Int) < (chapters.length : Int) - 1 then
                (chapters[chapterIndex + 1]?).map (·.Number)
              else none
            let prevChapter : Option ℚ :=
              if pageNumber = 1 ∧ chapterIndex > 0 then
                (chapters[chapterIndex - 1]?).map (·.Number)
              else none
            .ok { pageNumber := targetPage.Number,
                  totalPages := (pages.length : Int),
                  chapterID := targetChapter.ID,
                  mangaID := mangaID,
                  nextPage := targetPage.Number + 1,
                  prevPage := if targetPage.Number ≤ 1 then 0 else targetPage.Number - 1,
                  nextChapter := nextChapter,
                  prevChapter := prevChapter }

/-- The request body of `updateChapter` after JSON binding: a field omitted
from the request binds to its zero value. -/
structure ChapterUpdateRequest where
  Title : String
  Volume : Int
  Special : Bool
  deriving DecidableEq, Repr

/-- `updateChapter` (routes.go 598–674): resolve the manga, scan its chapters,
find the chapter by number, overwrite `Title` only when the request's title is
nonempty but `Volume` and `Special` unconditionally, and save the result to the
chapter directory's sidecar.  Returns the new filesystem and the updated
record (whose fields the handler echoes in its response). -/
def updateChapter (fs : FsNode) (now : GoTime) (rootDir : FsPath)
    (mangaID : String) (chapterNumber : ℚ) (req : ChapterUpdateRequest) :
    Except GoError (FsNode × Chapter) :=
  match getMangaByID fs now rootDir mangaID with
  | .error e => .error e
  | .ok manga =>
    match scanForChapters fs now manga with
    | .error e => .error e
    | .ok chapters =>
      match findChapter chapters chapterNumber with
      | none => .error (.chapterNotFoundError "Chapter not found")
      | some (_, targetChapter) =>
        let updated : Chapter :=
          { targetChapter with
            Title := if req.Title ≠ "" then req.Title else targetChapter.Title,
            Volume := req.Volume,
            Special := req.Special }
        let metadataPath := updated.Path ++ [metadataFileName]
        .ok (saveChapterToJSON fs updated metadataPath, updated)

/-- Characters kept by `createSlug`'s regular expression `[^a-z0-9\-]`
(everything else is removed). -/
def isSlugChar (c : Char) : Bool :=
  ('a' ≤ c ∧ c ≤ 'z') ∨ ('0' ≤ c ∧ c ≤ '9') ∨ c = '-'

/-- One pass of `strings.ReplaceAll(slug, "--", "-")` (non-overlapping,
left-to-right). -/
def collapseOnce : List Char → List Char
  | [] => []
  | [c] => [c]
  | c1 :: c2 :: rest =>
    if c1 = '-' ∧ c2 = '-' then '-' :: collapseOnce rest
    else c1 :: collapseOnce (c2 :: rest)

/-- `strings.Contains(slug, "--")`. -/
def hasDoubleHyphen : List Char → Bool
  | [] => false
  | [_] => false
  | c1 :: c2 :: rest => (c1 = '-' ∧ c2 = '-') ∨ hasDoubleHyphen (c2 :: rest)

/-- The `for strings.Contains(slug, "--")` loop of `createSlug`, fuel-indexed;
the fuel is instantiated with the string length, which suffices because each
iteration shortens the string. -/
def collapseLoop : Nat → List Char → List Char
  | 0, s => s
  | fuel + 1, s => if hasDoubleHyphen s then collapseLoop fuel (collapseOnce s) else s

/-- `strings.Trim(slug, "-")`: drop leading and trailing hyphens. -/
def trimHyphens (s : List Char) : List Char :=
  ((s.dropWhile (· = '-')).reverse.dropWhile (· = '-')).reverse

/-- `createSlug` (routes.go 691–705): lower-case, spaces to hyphens, strip
characters outside `[a-z0-9-]`, collapse double hyphens to single ones until
none remain, trim hyphens from both ends. -/
def createSlug (s : String) : String :=
  let slug := goToLower s.data
  let slug := goReplaceAll slug " ".data "-".data
  let slug := slug.filter isSlugChar
  let slug := collapseLoop slug.length slug
  ⟨trimHyphens slug⟩

/-! ## Helper lemmas about the page-listing pipeline -/

/-- `filepath.Ext` is idempotent: an extension's own extension is itself. -/
theorem goExt_idem : ∀ (l : List Char), goExt (goExt l) = goExt l
  | [] => rfl
  | c :: rest => by
    have ih := goExt_idem rest
    cases h : goExt rest with
    | nil =>
      by_cases hc : c = '.'
      · simp [goExt, h, hc]
      · simp [goExt, h, hc]
    | cons e es =>
      rw [h] at ih
      simp [goExt, h, ih]

/-- The "stem" `GetPages` computes is the empty string for every file name:
the code takes the extension of the name and then strips that extension's own
extension, which is all of it. -/
theorem pageNumStrOf_empty (name : String) : pageNumStrOf name = [] := by
  show List.take ((goExt name.data).length - (goExt (goExt name.data)).length)
    (goExt name.data) = []
  rw [goExt_idem]
  simp

theorem goAtoi_nil : goAtoi [] = none := by decide

/-- The list `[1, 2, …, n]` as Go ints. -/
def ordinalsTo (n : Nat) : List Int :=
  List.map (fun k : Nat => (k : Int)) (List.range' 1 n)

/-- Consequently the `strconv.Atoi` branch of `GetPages` never succeeds and
every page is numbered by the discovery-order fallback `len(pages) + 1`. -/
theorem buildPages_numbers (c : Chapter) :
    ∀ (es : List (String × FsNode)) (acc : List Page),
      acc.map (fun p => p.Number) = ordinalsTo acc.length →
      (buildPages c es acc).map (fun p => p.Number)
        = ordinalsTo (buildPages c es acc).length := by
  intro es
  induction es with
  | nil => intro acc h; simpa [buildPages] using h
  | cons e rest ih =>
    intro acc h
    by_cases hskip : e.2.isDirNode ∨ isMetadataFile e.1
    · rw [buildPages, if_pos hskip]
      exact ih acc h
    · rw [buildPages, if_neg hskip]
      apply ih
      rw [pageNumStrOf_empty, goAtoi_nil]
      simp only [ordinalsTo, List.map_append, List.length_append, List.map_cons,
        List.map_nil, List.length_cons, List.length_nil, List.range'_1_concat]
      rw [show acc.map (fun p => p.Number)
            = List.map (fun k : Nat => (k : Int)) (List.range' 1 acc.length) from h]
      simp [Nat.add_comm]

theorem sortPages_cons (a : Page) (l : List Page) :
    sortPages (a :: l) = insertPage a (sortPages l) := rfl

/-- A comparison sort is the identity on a list whose page numbers are already
strictly increasing. -/
theorem sortPages_of_chain :
    ∀ (l : List Page), List.Chain' (fun a b => a.Number < b.Number) l → sortPages l = l := by
  intro l
  induction l with
  | nil => intro _; rfl
  | cons a rest ih =>
    intro h
    rw [sortPages_cons, ih h.tail]
    cases rest with
    | nil => rfl
    | cons b bs =>
      have hab : a.Number < b.Number := (List.chain'_cons.mp h).1
      simp [insertPage, hab]

/-- The page numbers produced by `GetPages` are exactly `1, 2, …, n` in
discovery order: the ordinal fallback fires for every file, and the sort leaves
the already-ascending list unchanged. -/
theorem getPages_numbers (fs : FsNode) (c : Chapter) (pages : List Page) (c' : Chapter)
    (h : getPages fs c = .ok (pages, c')) :
    pages.map (fun p => p.Number) = ordinalsTo pages.length
      ∧ c' = { c with PageCount := (pages.length : Int) } := by
  unfold getPages at h
  cases hdir : fs.readDir c.Path with
  | none => rw [hdir] at h; exact absurd h (by simp)
  | some files =>
    rw [hdir] at h
    simp only [Except.ok.injEq, Prod.mk.injEq] at h
    obtain ⟨hp, hc⟩ := h
    have hnum := buildPages_numbers c files [] (by simp [ordinalsTo])
    have hchain : List.Chain' (fun a b => a.Number < b.Number) (buildPages c files []) := by
      apply List.Pairwise.chain'
      have : List.Pairwise (· < ·) ((buildPages c files []).map (fun p => p.Number)) := by
        rw [hnum, ordinalsTo]
        refine List.pairwise_map.mpr (List.Pairwise.imp ?_ (List.pairwise_lt_range' 1 _))
        exact fun {a b} hab => by exact_mod_cast hab
      exact (List.pairwise_map.mp this)
    have hsort := sortPages_of_chain _ hchain
    rw [hsort] at hp hc
    subst hp
    exact ⟨hnum, hc.symm⟩

/-- Every page returned by `GetPages` has a number between 1 and the page
count. -/
theorem getPages_number_bounds (fs : FsNode) (c : Chapter) (pages : List Page) (c' : Chapter)
    (h : getPages fs c = .ok (pages, c')) :
    ∀ p ∈ pages, 1 ≤ p.Number ∧ p.Number ≤ (pages.length : Int) := by
  intro p hp
  have hnum := (getPages_numbers fs c pages c' h).1
  have hmem : p.Number ∈ pages.map (fun p => p.Number) := List.mem_map_of_mem _ hp
  rw [hnum, ordinalsTo] at hmem
  obtain ⟨n, hn, hcast⟩ := List.mem_map.mp hmem
  have := List.mem_range'_1.mp hn
  omega

/-! ## Claim theorems -/

/-- Equality of `Except` results is decidable (used to evaluate the engine on
concrete inputs). -/
instance instDecidableEqExcept {ε α : Type} [DecidableEq ε] [DecidableEq α] :
    DecidableEq (Except ε α) := fun a b =>
  match a, b with
  | .ok x, .ok y =>
    if h : x = y then isTrue (by rw [h]) else isFalse (fun hh => h (Except.ok.inj hh))
  | .error x, .error y =>
    if h : x = y then isTrue (by rw [h]) else isFalse (fun hh => h (Except.error.inj hh))
  | .ok _, .error _ => isFalse (fun hh => Except.noConfusion hh)
  | .error _, .ok _ => isFalse (fun hh => Except.noConfusion hh)

/-- An image file's bytes: not valid JSON for either record type. -/
def imageFile : FileData := { asManga := none, asChapter := none }

/-- The chapter directory of the specification's own example: page files
`1.jpg, 2.jpg, 5.png` (in `os.ReadDir`'s name order). -/
def c1ChapterDir : FsNode :=
  .dir [("1.jpg", .file imageFile), ("2.jpg", .file imageFile), ("5.png", .file imageFile)]

def c1Fs : FsNode := .dir [("library", .dir [("series", .dir [("chapter-1", c1ChapterDir)])])]

def c1Chapter : Chapter :=
  { ID := "chapter-1", MangaID := "series", Number := 1, Title := "chapter 1",
    ReleaseDate := 0, PageCount := 0, Path := ["library", "series", "chapter-1"],
    Volume := 0, Special := false }

/-- C1: on a chapter directory with files `1.jpg, 2.jpg, 5.png`, the claim says
`GetPages` parses the numbers `[1, 2, 5]` from the filename stems.  The code
instead returns `[1, 2, 3]` and page count 3: its stem computation
(`pageNumStr = filepath.Ext(pageNumStr)` followed by stripping that string's
own extension) always yields the empty string (`pageNumStrOf_empty`), so
`strconv.Atoi` always fails and every page receives the ordinal fallback
`len(pages) + 1`, contradicting the code's own comment "Extract page number
from filename (assuming filenames like 1.jpg, 2.png, etc.)". -/
theorem getPages_assigns_ordinals_not_stems :
    ((getPages c1Fs c1Chapter).map (fun r => r.1.map (fun p => p.Number)) = .ok [1, 2, 3])
    ∧ ((getPages c1Fs c1Chapter).map (fun r => r.2.PageCount) = .ok 3)
    ∧ goAtoi "1".data = some 1 ∧ goAtoi "2".data = some 2 ∧ goAtoi "5".data = some 5
    ∧ ([1, 2, 3] : List Int) ≠ [1, 2, 5] := by decide

/-- A chapter directory in which the spec's stem rule produces a tie:
`01.jpg` and `1.jpg` both have stems parsing to page number 1
(`os.ReadDir` order: `01.jpg` before `1.jpg`). -/
def c7ChapterDir : FsNode :=
  .dir [("01.jpg", .file imageFile), ("1.jpg", .file imageFile)]

def c7Fs : FsNode := .dir [("library", .dir [("series", .dir [("chapter-1", c7ChapterDir)])])]

def c7Chapter : Chapter :=
  { ID := "chapter-1", MangaID := "series", Number := 1, Title := "chapter 1",
    ReleaseDate := 0, PageCount := 0, Path := ["library", "series", "chapter-1"],
    Volume := 0, Special := false }

/-- C7: the claim describes listings in which two or more pages receive the
same page number and asserts the sort keeps them in discovery order.  In the
code no two pages ever receive the same number: because the computed stem is
always empty (see `pageNumStrOf_empty`), pages are numbered by the strictly
increasing ordinals `1..n` (`getPages_numbers`), so the tie situation the spec
describes is unreachable.  At the spec-level tie input `01.jpg, 1.jpg` (both
stems parse to 1, as the `goAtoi` conjuncts show) the code returns the
distinct numbers `[1, 2]`. -/
theorem getPages_ties_unreachable :
    ((getPages c7Fs c7Chapter).map (fun r => r.1.map (fun p => p.Number)) = .ok [1, 2])
    ∧ goAtoi "01".data = some 1 ∧ goAtoi "1".data = some 1
    ∧ ([1, 2] : List Int).Nodup := by decide

/-- C2, counterexample: the claim asserts the inferred chapter number is always
`≥ 1`.  For the directory name `"0.5"` (no chapter token to strip) the
remainder parses to the JSON number 0.5, which is nonzero, so it is kept as the
chapter number — and 0.5 < 1. -/
theorem createChapterFromDirectory_number_below_one :
    (createChapterFromDirectory (FsNode.dir []) 0 "series" ["0.5"]).Number = mkRat 1 2
    ∧ ¬ (1 ≤ (createChapterFromDirectory (FsNode.dir []) 0 "series" ["0.5"]).Number) := by
  decide

/-- C2, amended: chapter inference never errors (the Go function's error result
is identically `nil`) and never returns a zero chapter number; when parsing the
stripped remainder of the directory name fails or yields zero, the number
defaults to exactly 1, and otherwise it equals the parsed value — which can lie
below 1 (or even be negative), so "≥ 1" does not hold in general. -/
theorem createChapterFromDirectory_number_amended (fs : FsNode) (now : GoTime)
    (mangaID : String) (dirPath : FsPath) :
    (createChapterFromDirectory fs now mangaID dirPath).Number ≠ 0
    ∧ (goJsonNumber (strippedChapterName (pathBase dirPath)) = none →
        (createChapterFromDirectory fs now mangaID dirPath).Number = 1)
    ∧ (goJsonNumber (strippedChapterName (pathBase dirPath)) = some 0 →
        (createChapterFromDirectory fs now mangaID dirPath).Number = 1)
    ∧ (∀ q : ℚ, goJsonNumber (strippedChapterName (pathBase dirPath)) = some q → q ≠ 0 →
        (createChapterFromDirectory fs now mangaID dirPath).Number = q) := by
  have hN : (createChapterFromDirectory fs now mangaID dirPath).Number
      = inferredChapterNumber (pathBase dirPath) := rfl
  rw [hN]
  unfold inferredChapterNumber
  cases h : goJsonNumber (strippedChapterName (pathBase dirPath)) with
  | none =>
    exact ⟨one_ne_zero, fun _ => rfl, fun h0 => by simp at h0, fun q hq => by simp at hq⟩
  | some num =>
    by_cases h0 : num = 0
    · subst h0
      refine ⟨by simp, fun hn => by simp at hn, fun _ => by simp, ?_⟩
      intro q hq hq0
      rw [Option.some.injEq] at hq
      exact absurd hq.symm hq0
    · refine ⟨by simp [h0], fun hn => by simp at hn, ?_, ?_⟩
      · intro hz
        rw [Option.some.injEq] at hz
        exact absurd hz h0
      · intro q hq hq0
        rw [Option.some.injEq] at hq
        subst hq
        simp [h0]

/-- Witness for the amended C2 theorem: the default fires at directory name
`"0"` (parses to zero), and the parsed value is kept at `"0.5"`. -/
theorem createChapterFromDirectory_number_amended_witness :
    (createChapterFromDirectory (FsNode.dir []) 0 "series" ["0"]).Number = 1
    ∧ (createChapterFromDirectory (FsNode.dir []) 0 "series" ["0.5"]).Number = mkRat 1 2 := by
  refine ⟨(createChapterFromDirectory_number_amended (FsNode.dir []) 0 "series" ["0"]).2.2.1
      (by decide),
    (createChapterFromDirectory_number_amended (FsNode.dir []) 0 "series" ["0.5"]).2.2.2
      (mkRat 1 2) (by decide) (by decide)⟩

theorem setFile_nil (n : FsNode) (d : FileData) : FsNode.setFile [] n d = .file d := rfl

theorem setFile_cons_file (k : String) (rest : FsPath) (f : FileData) (d : FileData) :
    FsNode.setFile (k :: rest) (.file f) d = .dir [(k, FsNode.setFile rest (.dir []) d)] := rfl

theorem setFile_cons_dir (k : String) (rest : FsPath) (es : List (String × FsNode))
    (d : FileData) :
    FsNode.setFile (k :: rest) (.dir es) d =
      .dir (if es.any (fun e => e.1 = k) then
              es.map (fun e => if e.1 = k then
                (k, FsNode.setFile rest ((((es.find? (fun e => e.1 = k)).map (·.2)).getD
                  (.dir []))) d) else e)
            else es ++ [(k, FsNode.setFile rest ((((es.find? (fun e => e.1 = k)).map
              (·.2)).getD (.dir []))) d)]) := rfl

theorem lookup_dir (es : List (String × FsNode)) (k : String) (rest : FsPath) :
    (FsNode.dir es).lookup (k :: rest) =
      match es.find? (fun e => e.1 = k) with
      | some e => e.2.lookup rest
      | none => none := rfl

/-- Updating the entry for key `k` makes `find?` return it, provided the key
was present. -/
theorem find?_map_update {β : Type} (k : String) (nc : β) :
    ∀ (es : List (String × β)),
      es.any (fun e => e.1 = k) = true →
      (es.map (fun e => if e.1 = k then (k, nc) else e)).find? (fun e => e.1 = k)
        = some (k, nc) := by
  intro es
  induction es with
  | nil => intro h; simp at h
  | cons e rest ih =>
    intro h
    by_cases he : e.1 = k
    · simp [List.find?_cons, he]
    · have h' : rest.any (fun e => decide (e.1 = k)) = true := by
        simp only [List.any_cons] at h
        simpa [he] using h
      simp only [List.map_cons, if_neg he, List.find?_cons]
      have hd : (decide (e.1 = k)) = false := by simp [he]
      rw [hd]
      exact ih h'

/-- A file written at a writable path is found at that path. -/
theorem lookup_setFile_self :
    ∀ (p : FsPath) (n : FsNode) (d : FileData),
      (FsNode.setFile p n d).lookup p = some (.file d) := by
  intro p
  induction p with
  | nil => intro n d; rfl
  | cons k rest ih =>
    intro n d
    cases n with
    | file f =>
      rw [setFile_cons_file, lookup_dir]
      simp only [List.find?_cons, decide_eq_true rfl]
      exact ih _ d
    | dir es =>
      rw [setFile_cons_dir]
      by_cases hany : es.any (fun e => e.1 = k) = true
      · rw [if_pos hany, lookup_dir, find?_map_update k _ es hany]
        exact ih _ d
      · rw [if_neg hany, lookup_dir, List.find?_append]
        have hnone : es.find? (fun e => decide (e.1 = k)) = none := by
          rw [List.find?_eq_none]
          intro x hx
          simp only [decide_eq_true_eq]
          intro hxk
          exact hany (List.any_eq_true.mpr ⟨x, hx, by simp [hxk]⟩)
        rw [hnone]
        simp only [Option.none_or, List.find?_cons, decide_eq_true rfl]
        exact ih _ d

/-- Decoding an encoded series record restores every field except `Path`,
which is overwritten with the given directory. -/
theorem mangaFromDoc_encode (m : MangaSeries) (p : FsPath) :
    mangaFromDoc (encodeManga m) p = { m with Path := p } := rfl

/-- C3: saving a series record at its canonical sidecar path
`root/id/metadata.json` and loading it back through `getMangaByID` yields a
record equal to the saved one in every field except `Path`, which is
recomputed as the parent directory of the sidecar actually loaded — regardless
of the `Path` the record held before saving (it is never serialized). -/
theorem saveManga_then_getMangaByID_roundtrip (fs : FsNode) (now : GoTime)
    (rootDir : FsPath) (m : MangaSeries) (hID : m.ID ≠ "") (hTitle : m.Title ≠ "") :
    getMangaByID (saveMangaToJSON fs m (rootDir ++ [m.ID, metadataFileName])) now rootDir m.ID
      = .ok { m with Path := rootDir ++ [m.ID] } := by
  have hlook := lookup_setFile_self (rootDir ++ [m.ID, metadataFileName]) fs
    (mangaFileData (encodeManga m))
  have hstat : (saveMangaToJSON fs m (rootDir ++ [m.ID, metadataFileName])).statExists
      (rootDir ++ [m.ID, metadataFileName]) = true := by
    unfold saveMangaToJSON FsNode.statExists
    rw [hlook]
    rfl
  unfold getMangaByID
  rw [if_pos hstat]
  unfold loadMangaFromJSON FsNode.fileAt
  unfold saveMangaToJSON at hlook ⊢
  rw [hlook]
  show Except.ok (mangaFromDoc (encodeManga m) (dirOf (rootDir ++ [m.ID, metadataFileName])))
    = _
  rw [mangaFromDoc_encode]
  have hdir : dirOf (rootDir ++ [m.ID, metadataFileName]) = rootDir ++ [m.ID] := by
    show (rootDir ++ [m.ID, metadataFileName]).dropLast = _
    rw [show rootDir ++ [m.ID, metadataFileName]
      = (rootDir ++ [m.ID]) ++ [metadataFileName] by simp]
    exact List.dropLast_concat
  rw [hdir]

/-- A concrete series record (its `Path` deliberately points elsewhere). -/
def c3Series : MangaSeries :=
  { ID := "s1", Title := "T", Description := "D", Author := "A", Artist := "Ar",
    CoverImage := "c.jpg", Genres := ["g"], Status := "done", PublishedYear := 1999,
    LastUpdated := 9, ChapterCount := 2, AltTitles := ["alt"], Path := ["elsewhere"] }

/-- Witness for the C3 round trip at a concrete record and filesystem. -/
theorem saveManga_then_getMangaByID_roundtrip_witness :
    c3Series.ID ≠ "" ∧ c3Series.Title ≠ ""
    ∧ getMangaByID (saveMangaToJSON (FsNode.dir []) c3Series
          (["root"] ++ [c3Series.ID, metadataFileName])) 0 ["root"] c3Series.ID
        = .ok { c3Series with Path := ["root"] ++ [c3Series.ID] } :=
  ⟨by decide, by decide,
    saveManga_then_getMangaByID_roundtrip (FsNode.dir []) 0 ["root"] c3Series
      (by decide) (by decide)⟩

/-- C5: `GetMangaByID` first builds the direct path `root/id/metadata.json`;
when that sidecar loads, its record is returned without any scan; otherwise a
full scan runs and the result is searched linearly for the ID, and a search
miss after a successful fallback scan yields exactly `MangaNotFoundError`. -/
theorem getMangaByID_resolution (fs : FsNode) (now : GoTime) (rootDir : FsPath)
    (id : String) :
    (∀ m : MangaSeries, loadMangaFromJSON fs (rootDir ++ [id, metadataFileName]) = .ok m →
        getMangaByID fs now rootDir id = .ok m)
    ∧ (fs.statExists (rootDir ++ [id, metadataFileName]) = false →
        ∀ l : List MangaSeries, scanForManga fs now rootDir = .ok l →
          getMangaByID fs now rootDir id =
            (match l.find? (fun m => m.ID = id) with
             | some m => .ok m
             | none => .error (.mangaNotFoundError ("no manga with ID: " ++ id))))
    ∧ (fs.statExists (rootDir ++ [id, metadataFileName]) = false →
        ∀ l : List MangaSeries, scanForManga fs now rootDir = .ok l →
          l.find? (fun m => m.ID = id) = none →
          getMangaByID fs now rootDir id
            = .error (.mangaNotFoundError ("no manga with ID: " ++ id))) := by
  refine ⟨?_, ?_, ?_⟩
  · intro m hm
    have hstat : fs.statExists (rootDir ++ [id, metadataFileName]) = true := by
      unfold loadMangaFromJSON FsNode.fileAt at hm
      unfold FsNode.statExists
      cases hl : fs.lookup (rootDir ++ [id, metadataFileName]) with
      | none => rw [hl] at hm; exact absurd hm (by simp)
      | some node => simp [hl]
    simp only [getMangaByID]
    rw [if_pos hstat]
    exact hm
  · intro hstat l hscan
    simp only [getMangaByID]
    rw [if_neg (by simp [hstat]), hscan]
  · intro hstat l hscan hfind
    simp only [getMangaByID]
    rw [if_neg (by simp [hstat]), hscan]
    show (match l.find? (fun m => m.ID = id) with
          | some m => Except.ok m
          | none => Except.error (GoError.mangaNotFoundError ("no manga with ID: " ++ id)))
      = Except.error (GoError.mangaNotFoundError ("no manga with ID: " ++ id))
    rw [hfind]

/-- An empty library: the root directory exists but holds no series. -/
def c5Fs : FsNode := .dir [("root", .dir [])]

/-- Witness for C5: an identifier with no direct sidecar and no scan hit yields
`MangaNotFoundError`. -/
theorem getMangaByID_resolution_witness :
    getMangaByID c5Fs 0 ["root"] "ghost"
      = .error (.mangaNotFoundError ("no manga with ID: " ++ "ghost")) :=
  (getMangaByID_resolution c5Fs 0 ["root"] "ghost").2.2 (by decide) [] (by decide) (by decide)

/-- C9: when the direct sidecar `root/id/metadata.json` exists but fails to
load, `GetMangaByID` returns that load failure (a `MetadataError`) directly —
the scan fallback never runs (the result does not depend on what a scan would
find), so the lookup never yields `MangaNotFoundError`. -/
theorem getMangaByID_direct_load_failure (fs : FsNode) (now : GoTime) (rootDir : FsPath)
    (id : String) (e : GoError)
    (hstat : fs.statExists (rootDir ++ [id, metadataFileName]) = true)
    (hload : loadMangaFromJSON fs (rootDir ++ [id, metadataFileName]) = .error e) :
    getMangaByID fs now rootDir id = .error e
    ∧ e.isMetadataError = true ∧ e.isMangaNotFoundError = false := by
  have hmain : getMangaByID fs now rootDir id = .error e := by
    simp only [getMangaByID]
    rw [if_pos hstat]
    exact hload
  refine ⟨hmain, ?_⟩
  unfold loadMangaFromJSON at hload
  cases hfa : FsNode.fileAt fs (rootDir ++ [id, metadataFileName]) with
  | none =>
    rw [hfa] at hload
    have he := Except.error.inj hload
    rw [← he]
    exact ⟨rfl, rfl⟩
  | some d =>
    rw [hfa] at hload
    have hload' : (match d.asManga with
        | none => Except.error (GoError.metadataError "failed to parse manga metadata")
        | some doc => Except.ok (mangaFromDoc doc (dirOf (rootDir ++ [id, metadataFileName]))))
        = Except.error e := hload
    cases hm : d.asManga with
    | none =>
      rw [hm] at hload'
      have he := Except.error.inj hload'
      rw [← he]
      exact ⟨rfl, rfl⟩
    | some doc =>
      rw [hm] at hload'
      exact absurd hload' (by simp)

/-- A library whose only series directory holds a sidecar that is not valid
JSON for a series record. -/
def c9Fs : FsNode := .dir [("root", .dir [("bad", .dir [("metadata.json", .file imageFile)])])]

/-- Witness for C9 at a concrete corrupt sidecar. -/
theorem getMangaByID_direct_load_failure_witness :
    getMangaByID c9Fs 0 ["root"] "bad"
      = .error (.metadataError "failed to parse manga metadata")
    ∧ (GoError.metadataError "failed to parse manga metadata").isMetadataError = true :=
  ⟨(getMangaByID_direct_load_failure c9Fs 0 ["root"] "bad"
      (.metadataError "failed to parse manga metadata") (by decide) (by decide)).1,
   by decide⟩

/-- C6: the aggregate series scan errors exactly when the root directory cannot
be enumerated; when enumeration succeeds it returns the per-entry results, and
an entry is dropped exactly when it is not a directory or its present sidecar
fails to load (inference never fails).  The chapter scan follows the same
policy relative to the series directory, additionally skipping hidden
directories. -/
theorem scan_skip_policy (fs : FsNode) (now : GoTime) (rootDir : FsPath)
    (manga : MangaSeries) :
    ((∃ e, scanForManga fs now rootDir = .error e) ↔ fs.readDir rootDir = none)
    ∧ (∀ es, fs.readDir rootDir = some es →
        scanForManga fs now rootDir = .ok (es.filterMap (mangaEntry fs now rootDir)))
    ∧ (∀ ent : String × FsNode,
        mangaEntry fs now rootDir ent = none ↔
          (ent.2.isDirNode = false
            ∨ (fs.statExists ((rootDir ++ [ent.1]) ++ [metadataFileName]) = true
               ∧ ∃ e, loadMangaFromJSON fs ((rootDir ++ [ent.1]) ++ [metadataFileName])
                   = .error e)))
    ∧ ((∃ e, scanForChapters fs now manga = .error e) ↔ fs.readDir manga.Path = none)
    ∧ (∀ es, fs.readDir manga.Path = some es →
        scanForChapters fs now manga = .ok (es.filterMap (chapterEntry fs now manga)))
    ∧ (∀ ent : String × FsNode,
        chapterEntry fs now manga ent = none ↔
          (ent.2.isDirNode = false ∨ goHasPrefix ent.1.data ".".data = true
            ∨ (fs.statExists ((manga.Path ++ [ent.1]) ++ [metadataFileName]) = true
               ∧ ∃ e, loadChapterFromJSON fs ((manga.Path ++ [ent.1]) ++ [metadataFileName])
                   = .error e))) := by
  refine ⟨?_, ?_, ?_, ?_, ?_, ?_⟩
  · unfold scanForManga
    cases h : fs.readDir rootDir with
    | none => simp
    | some es => simp
  · intro es h
    unfold scanForManga
    rw [h]
  · intro ent
    unfold mangaEntry
    by_cases hd : ent.2.isDirNode = true
    · rw [if_neg (by simp [hd])]
      by_cases hstat : fs.statExists ((rootDir ++ [ent.1]) ++ [metadataFileName]) = true
      · rw [if_pos hstat]
        cases hl : loadMangaFromJSON fs ((rootDir ++ [ent.1]) ++ [metadataFileName]) with
        | ok m =>
          constructor
          · intro hh; exact absurd hh (by simp)
          · rintro (hh | ⟨-, e, he⟩)
            · rw [hd] at hh; exact absurd hh (by simp)
            · exact absurd he (by simp)
        | error er =>
          constructor
          · intro _; exact Or.inr ⟨hstat, er, rfl⟩
          · intro _; rfl
      · rw [if_neg hstat]
        constructor
        · intro hh; exact absurd hh (by simp)
        · rintro (hh | ⟨hh, -⟩)
          · rw [hd] at hh; exact absurd hh (by simp)
          · exact absurd hh hstat
    · rw [if_pos hd]
      simp only [Bool.not_eq_true] at hd
      constructor
      · intro _; exact Or.inl hd
      · intro _; rfl
  · unfold scanForChapters
    cases h : fs.readDir manga.Path with
    | none => simp
    | some es => simp
  · intro es h
    unfold scanForChapters
    rw [h]
  · intro ent
    unfold chapterEntry
    by_cases hd : ent.2.isDirNode = true
    · by_cases hp : goHasPrefix ent.1.data ".".data = true
      · rw [if_pos (Or.inr hp)]
        constructor
        · intro _; exact Or.inr (Or.inl hp)
        · intro _; rfl
      · rw [if_neg (by simp [hd, hp])]
        by_cases hstat : fs.statExists ((manga.Path ++ [ent.1]) ++ [metadataFileName]) = true
        · rw [if_pos hstat]
          cases hl : loadChapterFromJSON fs ((manga.Path ++ [ent.1]) ++ [metadataFileName]) with
          | ok c =>
            constructor
            · intro hh; exact absurd hh (by simp)
            · rintro (hh | hh | ⟨-, e, he⟩)
              · rw [hd] at hh; exact absurd hh (by simp)
              · exact absurd hh hp
              · exact absurd he (by simp)
          | error er =>
            constructor
            · intro _; exact Or.inr (Or.inr ⟨hstat, er, rfl⟩)
            · intro _; rfl
        · rw [if_neg hstat]
          constructor
          · intro hh; exact absurd hh (by simp)
          · rintro (hh | hh | ⟨hh, -⟩)
            · rw [hd] at hh; exact absurd hh (by simp)
            · exact absurd hh hp
            · exact absurd hh hstat
    · rw [if_pos (Or.inl hd)]
      simp only [Bool.not_eq_true] at hd
      constructor
      · intro _; exact Or.inl hd
      · intro _; rfl

/-- A series directory whose sidecar is not valid JSON. -/
def c6BadDir : FsNode := .dir [("metadata.json", .file imageFile)]

/-- A root with one corrupt-sidecar series and one inferable one. -/
def c6Fs : FsNode := .dir [("root", .dir [("bad", c6BadDir), ("good", .dir [])])]

/-- A series record used only to instantiate the chapter-scan half of the C6
theorem. -/
def c6Manga : MangaSeries :=
  { ID := "m", Title := "m", Description := "", Author := "", Artist := "",
    CoverImage := "", Genres := [], Status := "", PublishedYear := 0,
    LastUpdated := 0, ChapterCount := 0, AltTitles := [], Path := ["root", "m"] }

/-- Witness for C6: a missing root makes the scan error; a corrupt sidecar
drops its entry while the aggregate scan still succeeds. -/
theorem scan_skip_policy_witness :
    (∃ e, scanForManga (FsNode.dir []) 0 ["root"] = .error e)
    ∧ mangaEntry c6Fs 0 ["root"] ("bad", c6BadDir) = none
    ∧ (∃ l, scanForManga c6Fs 0 ["root"] = .ok l) :=
  ⟨(scan_skip_policy (FsNode.dir []) 0 ["root"] c6Manga).1.mpr rfl,
   ((scan_skip_policy c6Fs 0 ["root"] c6Manga).2.2.1 ("bad", c6BadDir)).mpr
     (Or.inr ⟨by decide, ⟨GoError.metadataError "failed to parse manga metadata", by decide⟩⟩),
   ⟨_, (scan_skip_policy c6Fs 0 ["root"] c6Manga).2.1
     [("bad", c6BadDir), ("good", FsNode.dir [])] rfl⟩⟩

/-- The chapter-search loop returns the array index of the chapter it found. -/
theorem findChapter_spec :
    ∀ (l : List Chapter) (q : ℚ) (i : Nat) (c : Chapter),
      findChapter l q = some (i, c) → i < l.length ∧ l[i]? = some c := by
  intro l q
  induction l with
  | nil => intro i c h; exact absurd h (by simp [findChapter])
  | cons c0 rest ih =>
    intro i c h
    rw [findChapter] at h
    by_cases h0 : c0.Number = q
    · rw [if_pos h0] at h
      have := Option.some.inj h
      obtain ⟨hi, hc⟩ := Prod.mk.injEq .. ▸ this
      subst hi
      subst hc
      exact ⟨by simp, by simp⟩
    · rw [if_neg h0] at h
      cases hr : findChapter rest q with
      | none => rw [hr] at h; exact absurd h (by simp)
      | some jc =>
        rw [hr] at h
        have := Option.some.inj h
        obtain ⟨hj, hcc⟩ := Prod.mk.injEq .. ▸ this
        obtain ⟨hlen, hget⟩ := ih jc.1 jc.2 (by rw [hr])
        subst hcc
        have hi : i = jc.1 + 1 := hj.symm
        subst hi
        constructor
        · simpa using Nat.succ_lt_succ hlen
        · simpa using hget

/-- C4: for a page request that resolves (the manga loads, the chapter list
scans, the chapter is found at array index `idx`, its pages list, and the page
exists), the response's next-chapter field is set iff the requested page number
is the last by count and a chapter at the next-higher array index exists — and
then holds that chapter's number; the previous-chapter field is set iff the
page number is 1 and a lower array index exists — and then holds the number of
the chapter at the next-lower index.  Adjacency follows the scanned array
order, not numeric order. -/
theorem getPage_adjacency (fs : FsNode) (now : GoTime) (rootDir : FsPath)
    (mangaID : String) (chapterNumber : ℚ) (pageNumber : Int)
    (manga : MangaSeries) (chapters : List Chapter) (idx : Nat) (tch : Chapter)
    (pages : List Page) (tchU : Chapter) (resp : PageResponse)
    (hManga : getMangaByID fs now rootDir mangaID = .ok manga)
    (hChapters : scanForChapters fs now manga = .ok chapters)
    (hFind : findChapter chapters chapterNumber = some (idx, tch))
    (hPages : getPages fs tch = .ok (pages, tchU))
    (hResp : getPage fs now rootDir mangaID chapterNumber pageNumber = .ok resp) :
    (resp.nextChapter.isSome ↔ (pageNumber = (pages.length : Int) ∧ idx + 1 < chapters.length))
    ∧ (∀ c, chapters[idx + 1]? = some c → ∀ q, resp.nextChapter = some q → q = c.Number)
    ∧ (resp.prevChapter.isSome ↔ (pageNumber = 1 ∧ 0 < idx))
    ∧ (∀ c, chapters[idx - 1]? = some c → ∀ q, resp.prevChapter = some q → q = c.Number) := by
  have hstep : getPage fs now rootDir mangaID chapterNumber pageNumber
      = (match pages.find? (fun p => p.Number = pageNumber) with
         | none => .error (.pageNotFoundError "Page not found")
         | some targetPage =>
           .ok { pageNumber := targetPage.Number,
                 totalPages := (pages.length : Int),
                 chapterID := tch.ID,
                 mangaID := mangaID,
                 nextPage := targetPage.Number + 1,
                 prevPage := if targetPage.Number ≤ 1 then 0 else targetPage.Number - 1,
                 nextChapter := if pageNumber ≥ (pages.length : Int)
                     ∧ (idx : Int) < (chapters.length : Int) - 1 then
                   (chapters[idx + 1]?).map (·.Number)
                 else none,
                 prevChapter := if pageNumber = 1 ∧ idx > 0 then
                   (chapters[idx - 1]?).map (·.Number)
                 else none }) := by
    simp only [getPage, hManga, hChapters, hFind, hPages]
  rw [hstep] at hResp
  cases hFindP : pages.find? (fun p => p.Number = pageNumber) with
  | none => rw [hFindP] at hResp; exact absurd hResp (by simp)
  | some tp =>
    rw [hFindP] at hResp
    have hr := Except.ok.inj hResp
    have hnext : resp.nextChapter
        = (if pageNumber ≥ (pages.length : Int)
              ∧ (idx : Int) < (chapters.length : Int) - 1 then
             (chapters[idx + 1]?).map (·.Number)
           else none) := by rw [← hr]
    have hprev : resp.prevChapter
        = (if pageNumber = 1 ∧ idx > 0 then
             (chapters[idx - 1]?).map (·.Number)
           else none) := by rw [← hr]
    have htp : tp.Number = pageNumber := by
      have := List.find?_some hFindP
      simpa using this
    have hbound := getPages_number_bounds fs tch pages tchU hPages tp
      (List.mem_of_find?_eq_some hFindP)
    have hpn_le : pageNumber ≤ (pages.length : Int) := htp ▸ hbound.2
    have hchlen := (findChapter_spec chapters chapterNumber idx tch hFind).1
    refine ⟨?_, ?_, ?_, ?_⟩
    · rw [hnext]
      by_cases hcond : pageNumber ≥ (pages.length : Int)
          ∧ (idx : Int) < (chapters.length : Int) - 1
      · rw [if_pos hcond]
        obtain ⟨hge, hlt⟩ := hcond
        have hidx : idx + 1 < chapters.length := by omega
        constructor
        · intro _
          exact ⟨by omega, hidx⟩
        · intro _
          simp [List.getElem?_eq_getElem hidx]
      · rw [if_neg hcond]
        constructor
        · intro hh; simp at hh
        · rintro ⟨hpn, hidx⟩
          exact absurd ⟨by omega, by omega⟩ hcond
    · intro c hc q hq
      rw [hnext] at hq
      by_cases hcond : pageNumber ≥ (pages.length : Int)
          ∧ (idx : Int) < (chapters.length : Int) - 1
      · rw [if_pos hcond, hc] at hq
        exact (Option.some.inj hq).symm
      · rw [if_neg hcond] at hq
        exact absurd hq (by simp)
    · rw [hprev]
      by_cases hcond : pageNumber = 1 ∧ idx > 0
      · rw [if_pos hcond]
        obtain ⟨hpn, hpos⟩ := hcond
        have hidx : idx - 1 < chapters.length := by omega
        constructor
        · intro _
          exact ⟨hpn, hpos⟩
        · intro _
          simp [List.getElem?_eq_getElem hidx]
      · rw [if_neg hcond]
        constructor
        · intro hh; simp at hh
        · intro hh; exact absurd hh hcond
    · intro c hc q hq
      rw [hprev] at hq
      by_cases hcond : pageNumber = 1 ∧ idx > 0
      · rw [if_pos hcond, hc] at hq
        exact (Option.some.inj hq).symm
      · rw [if_neg hcond] at hq
        exact absurd hq (by simp)

/-- A library with one series holding chapters 1, 2, 3 (scan order = array
order), chapter 2 having two pages. -/
def c4Doc : MangaDoc :=
  { ID := "manga1", Title := "Manga One", Description := "d", Author := "a",
    Artist := "", CoverImage := "", Genres := [], Status := "ongoing",
    PublishedYear := 2001, LastUpdated := 5, ChapterCount := 3, AltTitles := [] }

def c4Fs : FsNode := .dir [("root", .dir [("manga1", .dir [
  ("chapter-1", .dir [("1.jpg", .file imageFile)]),
  ("chapter-2", .dir [("1.jpg", .file imageFile), ("2.jpg", .file imageFile)]),
  ("chapter-3", .dir [("1.jpg", .file imageFile)]),
  ("metadata.json", .file (mangaFileData c4Doc))])])]

def c4Manga : MangaSeries := mangaFromDoc c4Doc ["root", "manga1"]

def c4Chapters : List Chapter :=
  [createChapterFromDirectory c4Fs 0 "manga1" ["root", "manga1", "chapter-1"],
   createChapterFromDirectory c4Fs 0 "manga1" ["root", "manga1", "chapter-2"],
   createChapterFromDirectory c4Fs 0 "manga1" ["root", "manga1", "chapter-3"]]

def c4Target : Chapter := createChapterFromDirectory c4Fs 0 "manga1" ["root", "manga1", "chapter-2"]

def c4Page (n : Int) (name : String) : Page :=
  { Number := n, ImagePath := ["root", "manga1", "chapter-2", name],
    ChapterID := "chapter-2", MangaID := "manga1", Width := 0, Height := 0,
    FileSize := 0, MimeType := "" }

def c4Pages : List Page := [c4Page 1 "1.jpg", c4Page 2 "2.jpg"]

def c4RespLast : PageResponse :=
  { pageNumber := 2, totalPages := 2, chapterID := "chapter-2", mangaID := "manga1",
    nextPage := 3, prevPage := 1, nextChapter := some 3, prevChapter := none }

def c4RespFirst : PageResponse :=
  { pageNumber := 1, totalPages := 2, chapterID := "chapter-2", mangaID := "manga1",
    nextPage := 2, prevPage := 0, nextChapter := none, prevChapter := some 1 }

/-- Witness for C4 at the spec's example: chapters `[1, 2, 3]` in scan order;
the last page of chapter 2 yields next chapter 3, page 1 of chapter 2 yields
previous chapter 1. -/
theorem getPage_adjacency_witness :
    (getPage c4Fs 0 ["root"] "manga1" 2 2 = .ok c4RespLast)
    ∧ c4RespLast.nextChapter.isSome ∧ c4RespLast.nextChapter = some 3
    ∧ (getPage c4Fs 0 ["root"] "manga1" 2 1 = .ok c4RespFirst)
    ∧ c4RespFirst.prevChapter.isSome ∧ c4RespFirst.prevChapter = some 1
    ∧ c4RespFirst.nextChapter = none := by
  have hLast : getPage c4Fs 0 ["root"] "manga1" 2 2 = .ok c4RespLast := by decide
  have hFirst : getPage c4Fs 0 ["root"] "manga1" 2 1 = .ok c4RespFirst := by decide
  have hNextSome : c4RespLast.nextChapter.isSome :=
    (getPage_adjacency c4Fs 0 ["root"] "manga1" 2 2 c4Manga c4Chapters 1 c4Target
      c4Pages { c4Target with PageCount := 2 } c4RespLast
      (by decide) (by decide) (by decide) (by decide) hLast).1.mpr
      ⟨by decide, by decide⟩
  have hPrevSome : c4RespFirst.prevChapter.isSome :=
    (getPage_adjacency c4Fs 0 ["root"] "manga1" 2 1 c4Manga c4Chapters 1 c4Target
      c4Pages { c4Target with PageCount := 2 } c4RespFirst
      (by decide) (by decide) (by decide) (by decide) hFirst).2.2.1.mpr
      ⟨by decide, by decide⟩
  exact ⟨hLast, hNextSome, by decide, hFirst, hPrevSome, by decide, by decide⟩

/-- One collapse pass only emits hyphens and characters of the input. -/
theorem collapseOnce_all (p : Char → Bool) (hp : p '-' = true) :
    ∀ l : List Char, l.all p = true → (collapseOnce l).all p = true
  | [] => fun _ => rfl
  | [c] => fun h => h
  | c1 :: c2 :: rest => fun h => by
    simp only [List.all_cons, Bool.and_eq_true] at h
    obtain ⟨h1, h2, h3⟩ := h
    rw [collapseOnce]
    by_cases hd : c1 = '-' ∧ c2 = '-'
    · rw [if_pos hd, List.all_cons]
      exact (Bool.and_eq_true _ _).mpr ⟨hp, collapseOnce_all p hp rest h3⟩
    · rw [if_neg hd, List.all_cons]
      refine (Bool.and_eq_true _ _).mpr ⟨h1, collapseOnce_all p hp (c2 :: rest) ?_⟩
      rw [List.all_cons]
      exact (Bool.and_eq_true _ _).mpr ⟨h2, h3⟩

theorem collapseOnce_length_le : ∀ l : List Char, (collapseOnce l).length ≤ l.length
  | [] => le_refl _
  | [_] => le_refl _
  | c1 :: c2 :: rest => by
    rw [collapseOnce]
    by_cases hd : c1 = '-' ∧ c2 = '-'
    · rw [if_pos hd]
      have := collapseOnce_length_le rest
      simp only [List.length_cons]
      omega
    · rw [if_neg hd]
      have := collapseOnce_length_le (c2 :: rest)
      simp only [List.length_cons] at this ⊢
      omega

theorem collapseOnce_length_lt :
    ∀ l : List Char, hasDoubleHyphen l = true → (collapseOnce l).length < l.length
  | [] => by intro h; exact absurd h (by simp [hasDoubleHyphen])
  | [c] => by intro h; exact absurd h (by simp [hasDoubleHyphen])
  | c1 :: c2 :: rest => by
    intro h
    rw [collapseOnce]
    by_cases hd : c1 = '-' ∧ c2 = '-'
    · rw [if_pos hd]
      have := collapseOnce_length_le rest
      simp only [List.length_cons]
      omega
    · rw [if_neg hd]
      have hrest : hasDoubleHyphen (c2 :: rest) = true := by
        rcases (by simpa [hasDoubleHyphen] using h :
            (c1 = '-' ∧ c2 = '-') ∨ hasDoubleHyphen (c2 :: rest) = true) with hh | hh
        · exact absurd hh hd
        · exact hh
      have := collapseOnce_length_lt (c2 :: rest) hrest
      simp only [List.length_cons] at this ⊢
      omega

/-- The collapse loop terminates within its fuel with no double hyphen left. -/
theorem collapseLoop_noDD :
    ∀ (fuel : Nat) (l : List Char), l.length ≤ fuel →
      hasDoubleHyphen (collapseLoop fuel l) = false := by
  intro fuel
  induction fuel with
  | zero =>
    intro l hl
    have : l = [] := List.length_eq_zero.mp (Nat.le_zero.mp hl)
    subst this
    rfl
  | succ n ih =>
    intro l hl
    rw [collapseLoop]
    by_cases hdd : hasDoubleHyphen l = true
    · rw [if_pos hdd]
      exact ih _ (by have := collapseOnce_length_lt l hdd; omega)
    · rw [if_neg hdd]
      exact Bool.not_eq_true _ ▸ hdd

theorem collapseLoop_all (p : Char → Bool) (hp : p '-' = true) :
    ∀ (fuel : Nat) (l : List Char), l.all p = true →
      (collapseLoop fuel l).all p = true := by
  intro fuel
  induction fuel with
  | zero => intro l hl; exact hl
  | succ n ih =>
    intro l hl
    rw [collapseLoop]
    by_cases hdd : hasDoubleHyphen l = true
    · rw [if_pos hdd]
      exact ih _ (collapseOnce_all p hp l hl)
    · rw [if_neg hdd]
      exact hl

/-- `hasDoubleHyphen` detects exactly an occurrence of `"--"` as an infix. -/
theorem hasDD_iff_occurs : ∀ l : List Char,
    hasDoubleHyphen l = true ↔ ['-', '-'] <:+: l
  | [] => by
    constructor
    · intro h; exact absurd h (by simp [hasDoubleHyphen])
    · intro h; exact absurd (List.infix_nil.mp h) (by simp)
  | [c] => by
    constructor
    · intro h; exact absurd h (by simp [hasDoubleHyphen])
    · intro h
      have := h.sublist.length_le
      simp at this
  | c1 :: c2 :: rest => by
    have ih := hasDD_iff_occurs (c2 :: rest)
    rw [List.infix_cons_iff]
    constructor
    · intro h
      rcases (by simpa [hasDoubleHyphen] using h :
          (c1 = '-' ∧ c2 = '-') ∨ hasDoubleHyphen (c2 :: rest) = true) with ⟨e1, e2⟩ | hh
      · subst e1; subst e2
        exact Or.inl ⟨rest, rfl⟩
      · exact Or.inr (ih.mp hh)
    · intro h
      rcases h with hp | hi
      · rcases List.cons_prefix_iff.mp hp with ⟨e1, hp2⟩
        rcases List.cons_prefix_iff.mp hp2 with ⟨e2, -⟩
        simp [hasDoubleHyphen, e1.symm, e2.symm]
      · have := ih.mpr hi
        simp [hasDoubleHyphen, this]

/-- Trimming hyphens from both ends keeps a contiguous piece of the string. -/
theorem trimHyphens_within (l : List Char) : trimHyphens l <:+: l := by
  unfold trimHyphens
  have h1 : (l.dropWhile (· = '-')) <:+ l := List.dropWhile_suffix _
  have h2 : ((l.dropWhile (· = '-')).reverse.dropWhile (· = '-'))
      <:+ (l.dropWhile (· = '-')).reverse := List.dropWhile_suffix _
  have h3 : ((l.dropWhile (· = '-')).reverse.dropWhile (· = '-')).reverse
      <+: (l.dropWhile (· = '-')) := by
    rw [← List.reverse_suffix]
    simpa using h2
  exact h3.isInfix.trans h1.isInfix

/-- The trimmed string starts with no hyphen. -/
theorem trimHyphens_head (l : List Char) : (trimHyphens l).head? ≠ some '-' := by
  intro hcontra
  have h3 : ((l.dropWhile (· = '-')).reverse.dropWhile (· = '-')).reverse
      <+: (l.dropWhile (· = '-')) := by
    rw [← List.reverse_suffix]
    simpa using List.dropWhile_suffix (l := (l.dropWhile (· = '-')).reverse) (· = '-')
  obtain ⟨t, ht⟩ := h3
  have hA : (l.dropWhile (· = '-')).head? = some '-' := by
    rw [← ht, List.head?_append]
    have : (trimHyphens l).head?
        = (((l.dropWhile (· = '-')).reverse.dropWhile (· = '-')).reverse).head? := rfl
    rw [this] at hcontra
    rw [hcontra]
    rfl
  have hnot := List.head?_dropWhile_not (fun c => decide (c = '-')) l
  rw [hA] at hnot
  simp at hnot

/-- The trimmed string ends with no hyphen. -/
theorem trimHyphens_getLast (l : List Char) : (trimHyphens l).getLast? ≠ some '-' := by
  intro hcontra
  have : (trimHyphens l).getLast?
      = ((l.dropWhile (· = '-')).reverse.dropWhile (· = '-')).head? := by
    unfold trimHyphens
    rw [List.getLast?_reverse]
  rw [this] at hcontra
  have hnot := List.head?_dropWhile_not (fun c => decide (c = '-'))
    (l.dropWhile (· = '-')).reverse
  rw [hcontra] at hnot
  simp at hnot

/-- Trimming keeps the character alphabet. -/
theorem trimHyphens_all (p : Char → Bool) (l : List Char) (h : l.all p = true) :
    (trimHyphens l).all p = true := by
  rw [List.all_eq_true] at h ⊢
  intro x hx
  exact h x ((trimHyphens_within l).sublist.subset hx)

/-- C8: `createSlug` always yields a string over `[a-z0-9-]` with no leading
hyphen, no trailing hyphen and no two consecutive hyphens; in particular
`createSlug "One Piece!" = "one-piece"`. -/
theorem createSlug_shape :
    (∀ s : String,
      (createSlug s).data.all isSlugChar = true
      ∧ (createSlug s).data.head? ≠ some '-'
      ∧ (createSlug s).data.getLast? ≠ some '-'
      ∧ hasDoubleHyphen (createSlug s).data = false)
    ∧ createSlug "One Piece!" = "one-piece" := by
  constructor
  · intro s
    have hdata : (createSlug s).data = trimHyphens (collapseLoop
        ((goReplaceAll (goToLower s.data) " ".data "-".data).filter isSlugChar).length
        ((goReplaceAll (goToLower s.data) " ".data "-".data).filter isSlugChar)) := rfl
    set f := (goReplaceAll (goToLower s.data) " ".data "-".data).filter isSlugChar with hf
    have hfall : f.all isSlugChar = true := by
      rw [List.all_eq_true]
      intro x hx
      exact (List.mem_filter.mp hx).2
    have hC : (collapseLoop f.length f).all isSlugChar = true :=
      collapseLoop_all isSlugChar (by decide) f.length f hfall
    have hnoDD : hasDoubleHyphen (collapseLoop f.length f) = false :=
      collapseLoop_noDD f.length f le_rfl
    rw [hdata]
    refine ⟨trimHyphens_all _ _ hC, trimHyphens_head _, trimHyphens_getLast _, ?_⟩
    rw [Bool.eq_false_iff]
    intro h
    have hinf : ['-', '-'] <:+: collapseLoop f.length f :=
      ((hasDD_iff_occurs _).mp h).trans (trimHyphens_within _)
    have := (hasDD_iff_occurs _).mpr hinf
    rw [hnoDD] at this
    exact Bool.false_ne_true this
  · decide

/-- Witness accompanying C8's shape theorem at the spec's example input. -/
theorem createSlug_shape_witness :
    createSlug "One Piece!" = "one-piece"
    ∧ (createSlug "One Piece!").data.all isSlugChar = true :=
  ⟨createSlug_shape.2, (createSlug_shape.1 "One Piece!").1⟩

/-- C10: a successful chapter update persists the found chapter with `Volume`
and `Special` overwritten unconditionally from the request (so omitted fields
reset them to 0/false), `Title` replaced only when the request's title is
nonempty, and `ID`, `MangaID`, `Number`, `ReleaseDate`, `PageCount` and `Path`
unchanged; the new filesystem holds exactly that record's document at the
chapter's sidecar path. -/
theorem updateChapter_frame (fs : FsNode) (now : GoTime) (rootDir : FsPath)
    (mangaID : String) (chapterNumber : ℚ) (req : ChapterUpdateRequest)
    (fsOut : FsNode) (chOut : Chapter)
    (h : updateChapter fs now rootDir mangaID chapterNumber req = .ok (fsOut, chOut)) :
    ∃ (manga : MangaSeries) (chapters : List Chapter) (idx : Nat) (target : Chapter),
      getMangaByID fs now rootDir mangaID = .ok manga
      ∧ scanForChapters fs now manga = .ok chapters
      ∧ findChapter chapters chapterNumber = some (idx, target)
      ∧ chOut.ID = target.ID ∧ chOut.MangaID = target.MangaID
      ∧ chOut.Number = target.Number ∧ chOut.ReleaseDate = target.ReleaseDate
      ∧ chOut.PageCount = target.PageCount ∧ chOut.Path = target.Path
      ∧ chOut.Volume = req.Volume ∧ chOut.Special = req.Special
      ∧ chOut.Title = (if req.Title ≠ "" then req.Title else target.Title)
      ∧ fsOut = saveChapterToJSON fs chOut (target.Path ++ [metadataFileName])
      ∧ fsOut.fileAt (target.Path ++ [metadataFileName])
          = some (chapterFileData (encodeChapter chOut)) := by
  unfold updateChapter at h
  split at h
  · exact absurd h (by simp)
  · rename_i manga hm
    split at h
    · exact absurd h (by simp)
    · rename_i chapters hs
      split at h
      · exact absurd h (by simp)
      · rename_i pr idx target hf
        have hpair := Except.ok.inj h
        obtain ⟨hfs, hch⟩ := Prod.mk.injEq .. ▸ hpair
        refine ⟨manga, chapters, idx, target, hm, hs, hf, ?_⟩
        subst hch
        subst hfs
        refine ⟨rfl, rfl, rfl, rfl, rfl, rfl, rfl, rfl, rfl, rfl, ?_⟩
        unfold saveChapterToJSON FsNode.fileAt
        rw [lookup_setFile_self]

def c10Req : ChapterUpdateRequest := { Title := "", Volume := 7, Special := true }

def c10Chapter : Chapter := { c4Target with Volume := 7, Special := true }

def c10FsOut : FsNode :=
  saveChapterToJSON c4Fs c10Chapter (["root", "manga1", "chapter-2"] ++ [metadataFileName])

/-- Witness for C10: updating chapter 2 with an empty title, volume 7 and
special=true keeps the inferred title and number, overwrites volume and
special, and persists exactly the updated record at the chapter's sidecar. -/
theorem updateChapter_frame_witness :
    (updateChapter c4Fs 0 ["root"] "manga1" 2 c10Req = .ok (c10FsOut, c10Chapter))
    ∧ c10Chapter.Volume = c10Req.Volume
    ∧ c10Chapter.Special = c10Req.Special
    ∧ c10Chapter.Title = c4Target.Title
    ∧ c10Chapter.Number = c4Target.Number
    ∧ c10Chapter.PageCount = c4Target.PageCount
    ∧ c10FsOut.fileAt (["root", "manga1", "chapter-2"] ++ [metadataFileName])
        = some (chapterFileData (encodeChapter c10Chapter)) := by
  have h : updateChapter c4Fs 0 ["root"] "manga1" 2 c10Req = .ok (c10FsOut, c10Chapter) := rfl
  obtain ⟨manga, chapters, idx, target, -, -, -, -, -, -, -, -, -, hvol, hspec, -, -, -⟩ :=
    updateChapter_frame c4Fs 0 ["root"] "manga1" 2 c10Req c10FsOut c10Chapter h
  exact ⟨h, hvol, hspec, by decide, by decide, by decide, by decide⟩
